import Mathlib

/-!
Verification of the PaddleHub repository slice consisting of
`paddlehub/compat/task/text_generation_task.py` and the test harness of the
`human_pose_estimation_resnet50_mpii` keypoint-detection module.

Tensors are embedded as rational-valued nested lists.  The exponential used
by softmax is an abstract parameter `e : ℚ → ℚ`: every statement proved here
holds for any exponential, and concrete witnesses instantiate it with `id`.
Framework primitives (paddle `fc`, `matmul`, softmax, `dynamic_decode`,
numpy transpose, Python list slicing) are embedded from their documented
semantics; the repository's own Python is translated line by line.
-/

namespace TextGen

/-- Dot product of two rational vectors (vector-level `paddle.matmul`).
Like the framework, extra trailing entries of the longer vector are ignored
(shapes are equal in every use site). -/
def dot (xs ys : List ℚ) : ℚ :=
  (List.zipWith (fun a b => a * b) xs ys).sum

/-- `paddle.static.nn.fc(x, size, ...)`: an affine map whose output length is
exactly `size`, as the framework creates the weight with shape
`[len x, size]`.  `W` is stored column-major (`W.getD j` would be a column);
entry `j` of the output is `x ⬝ (column j of W) + b_j`. -/
def fcSized (size : Nat) (W : List (List ℚ)) (b : List ℚ) (x : List ℚ) : List ℚ :=
  (List.range size).map (fun j => dot x (W.map (fun row => row.getD j 0)) + b.getD j 0)

/-- `paddle.nn.functional.softmax` along a vector, parametric in the
exponential function `e`. -/
def softmax (e : ℚ → ℚ) (v : List ℚ) : List ℚ :=
  let ex := v.map e
  ex.map (fun x => x / ex.sum)

/-- `numpy.ndarray.T` for a (rectangular) matrix held as a list of rows: the
column count is read off the first row, as numpy reads it off the shape. -/
def npTranspose (m : List (List α)) : List (List α) :=
  (List.range (m.headD []).length).map (fun j => m.filterMap (fun row => row.get? j))

/-- Python list slicing `xs[:stop]` with a possibly negative stop index:
a negative stop counts from the end, clamped at zero. -/
def pySliceTo (xs : List α) (stop : Int) : List α :=
  if stop < 0 then xs.take (xs.length - stop.natAbs)
  else xs.take stop.toNat

/-- Python list slicing `xs[start:stop]` for a non-negative start, as used in
`_calculate_metrics` (`np_labels[i * max_len : i * max_len + np_lens[i] - 2]`). -/
def pySlice (xs : List α) (start stop : Int) : List α :=
  (pySliceTo xs stop).drop start.toNat

/-- First index of a maximal entry (the greedy token choice standing for the
framework decoder's per-beam top-score selection). -/
def argmaxIdx (v : List ℚ) : Nat :=
  match v.argmax id with
  | none => 0
  | some x => v.indexOf x

end TextGen

namespace TextGen

/-- The hyperparameters `TextGenerationTask.__init__` stores on `self`
(tensor-valued constructor arguments such as `feature` live in the built
network, not in this configuration record). -/
structure TextGenerationTask where
  num_layers : Nat
  hidden_size : Nat
  dropout : ℚ
  max_seq_len : Nat
  num_classes : Nat
  beam_size : Nat
  beam_max_step_num : Nat
  start_token : String
  end_token : String
  metrics_choices : List String
deriving Repr, DecidableEq

/-- The `metrics_choices` argument of `__init__`: either a string (the
default is the string `default`) or a list of metric names. -/
inductive MetricsArg where
  | str (s : String)
  | list (ms : List String)
deriving Repr, DecidableEq

/-- Lines 124-125 of `__init__`: the string `default` is replaced by the
list `[bleu]`; any other argument is kept as given. -/
def resolveMetricsChoices : MetricsArg → MetricsArg
  | .str s => if s = "default" then .list ["bleu"] else .str s
  | .list ms => .list ms

/-- `TextGenerationTask.__init__`, restricted to the configuration fields it
assigns.  `metrics_choices` is stored after the `default` resolution; a
string argument other than `default` is stored as a singleton here to keep
the field a list (no claim exercises that path). -/
def TextGenerationTask.init (max_seq_len num_classes num_layers hidden_size : Nat)
    (dropout : ℚ) (beam_size beam_max_step_num : Nat)
    (start_token end_token : String) (metrics_choices : MetricsArg) :
    TextGenerationTask :=
  { num_layers := num_layers
    hidden_size := hidden_size
    dropout := dropout
    max_seq_len := max_seq_len
    num_classes := num_classes
    beam_size := beam_size
    beam_max_step_num := beam_max_step_num
    start_token := start_token
    end_token := end_token
    metrics_choices :=
      match resolveMetricsChoices metrics_choices with
      | .list ms => ms
      | .str s => [s] }

/-- `__init__` called with only the required arguments: every optional
argument takes the default of the Python signature (lines 106-123). -/
def TextGenerationTask.initDefaults (max_seq_len num_classes : Nat) : TextGenerationTask :=
  TextGenerationTask.init max_seq_len num_classes 1 512 0 10 30 "<s>" "</s>" (.str "default")

/-- The decoder rnn hidden size the class docstring documents as the default
(line 95 of `text_generation_task.py`). -/
def docstringDefaultHiddenSize : Nat := 128

/-- The metric-scoring loop at the end of `_calculate_metrics` (lines
283-287): iterate over `metrics_choices`; `bleu` contributes
`compute_bleu(labels, results, max_order=1)[0]`, any other name raises
`ValueError`.  `compute_bleu` lives outside this slice of the repository and
is an abstract parameter `cb`; its first component is the score. -/
def calcMetricScores (cb : List (List String) → List (List String) → Nat → ℚ × ℚ)
    (labels results : List (List String)) : List String → Except String (List (String × ℚ))
  | [] => .ok []
  | m :: ms =>
    if m = "bleu" then
      match calcMetricScores cb labels results ms with
      | .ok rest => .ok (("bleu", (cb labels results 1).1) :: rest)
      | .error e => .error e
    else .error ("Not Support Metric: " ++ m)

/-- The label/inference extraction loop of `_calculate_metrics` (lines
262-272): for each sample `i` of the batch, ids
`np[i * max_len : i * max_len + np_lens[i] - 2]` are mapped through the
dataset label list, for the label array and the inference array alike. -/
def calcMetricsExtract (labelList : List String) (npLabels npInfers : List Nat)
    (npLens : List Int) : List (List String) × List (List String) :=
  let batchSize := npLens.length
  let maxLen : Nat := npLabels.length / batchSize
  ((List.range batchSize).map (fun i =>
      (pySlice npLabels (i * maxLen : Nat) ((i * maxLen : Nat) + npLens.getD i 0 - 2)).map
        (fun id => labelList.getD id "")),
   (List.range batchSize).map (fun i =>
      (pySlice npInfers (i * maxLen : Nat) ((i * maxLen : Nat) + npLens.getD i 0 - 2)).map
        (fun id => labelList.getD id "")))

/-- One fetched batch consumed by `_postprocessing`: `run_results[0]` is the
`[sample, time, beam]` id array of the beam-search output, `run_results[1]`
the flattened sequence lengths. -/
structure RunStateData where
  batchInfers : List (List (List Nat))
  seqLens : List Int
deriving Repr

/-- `TextGenerationTask._postprocessing` (lines 215-227): for batch sample
`i`, each beam (a column of the `[time, beam]` array, hence a row of its
transpose) is cut to its first `seq_lens[i] - 2` ids — Python slice
semantics, so a negative bound counts from the end — and mapped through
`_label_list`.  Python indexing `_label_list[infer]` is total here via
`getD` (claims supply the in-range hypothesis). -/
def postprocessing (labelList : List String) (runStates : List RunStateData) :
    List (List (List String)) :=
  runStates.foldl (fun results bs =>
    results ++ bs.batchInfers.enum.map (fun p =>
      (npTranspose p.2).map (fun beamInfer =>
        (pySliceTo beamInfer (bs.seqLens.getD p.1 0 - 2)).map
          (fun infer => labelList.getD infer "")))) []

/-- One step of every live beam of the framework's `BeamSearchDecoder`: the
cell consumes its state and the previously chosen token (embedded through
`embedding_fn`, projected through `output_fn` — both folded into `cell`),
and the beam extends by its best-scoring vocabulary id.  The decoder's
cross-beam top-k reranking is abstracted to this per-beam greedy choice;
the theorems only use the token-range, beam-count and step-count facts,
which the reranking shares. -/
def beamsStep (cell : σ → Nat → σ × List ℚ) (beams : List (σ × Nat)) :
    List (σ × Nat) × List Nat :=
  let stepped := beams.map (fun b =>
    let r := cell b.1 b.2
    ((r.1, argmaxIdx r.2), argmaxIdx r.2))
  (stepped.map Prod.fst, stepped.map Prod.snd)

/-- `paddle.nn.dynamic_decode(decoder, inits, max_step_num, ...)`: repeat
decoder steps until every beam has emitted the end token or `max_step_num`
steps have run, and return the time-major `[time, beam]` token array. -/
def dynamicDecode (cell : σ → Nat → σ × List ℚ) (endId : Nat) :
    Nat → List (σ × Nat) → List (List Nat)
  | 0, _ => []
  | fuel + 1, beams =>
    let s := beamsStep cell beams
    if s.2.all (fun t => t = endId) then [s.2]
    else s.2 :: dynamicDecode cell endId fuel s.1

/-- The cell actually decoded from in the predict branch: the decoder cell
followed by `output_fn` (`output_layer`, lines 198-199), a `fc` of size
`tar_vocab_size` reusing the `output_w` weight. -/
def predictCell (cell : σ → Nat → σ × List ℚ) (vocab : Nat)
    (W : List (List ℚ)) (b : List ℚ) : σ → Nat → σ × List ℚ :=
  fun s tok =>
    let r := cell s tok
    (r.1, fcSized vocab W b r.2)

/-- The teacher-forced decoder unroll of the non-predict branch
(`nn.RNN(dec_cell, ...)`, lines 182-186): feed `dec_input` token by token,
collecting the hidden outputs. -/
def rnnScan (cell : σ → Nat → σ × List ℚ) : σ → List Nat → List (List ℚ)
  | _, [] => []
  | s, t :: ts =>
    let r := cell s t
    r.2 :: rnnScan cell r.1 ts

/-- What `_build_net` returns: the softmax logits `[logits]` outside the
predict phase, the beam-search id array `ret_infers` in the predict phase. -/
inductive BuildNetOutput where
  | trainLogits (logits : List (List (List ℚ)))
  | predictInfers (retInfers : List (List (List Nat)))
deriving Repr

/-- `TextGenerationTask._build_net` (lines 149-213).  `cell` is the
`AttentionDecoderCell` with the embedding lookup folded in (its LSTM
internals are framework code), `initStates` holds one initial decoder state
per batch sample (`dec_init_hidden`), `outW`/`outB` the `output_w`
projection parameters.  Outside the predict phase the decoder is unrolled
over `dec_input` and the result is the softmaxed `fc` of size
`tar_vocab_size = len(_label_list)`; in the predict phase
`dynamic_decode` runs the beam-search decoder with `beam_size` beams from
`start_token_id` up to `beam_max_step_num` steps. -/
def build_net (isPredictPhase : Bool) (e : ℚ → ℚ) (cell : σ → Nat → σ × List ℚ)
    (labelList : List String) (startToken endToken : String)
    (outW : List (List ℚ)) (outB : List ℚ) (beamSize beamMaxStepNum : Nat)
    (initStates : List σ) (decInput : List Nat) : BuildNetOutput :=
  let tarVocabSize := labelList.length
  let startTokenId := labelList.indexOf startToken
  let endTokenId := labelList.indexOf endToken
  if isPredictPhase then
    .predictInfers (initStates.map (fun s0 =>
      dynamicDecode (predictCell cell tarVocabSize outW outB) endTokenId beamMaxStepNum
        (List.replicate beamSize (s0, startTokenId))))
  else
    .trainLogits (initStates.map (fun s0 =>
      (rnnScan cell s0 decInput).map (fun h =>
        softmax e (fcSized tarVocabSize outW outB h))))

/-- Matrix product `A ⬝ Bᵀ` (`paddle.matmul(a, b, transpose_y=True)` on one
batch element). -/
def matmulT (A B : List (List ℚ)) : List (List ℚ) :=
  A.map (fun row => B.map (fun brow => dot row brow))

/-- Plain matrix product `A ⬝ B` on one batch element. -/
def matmul (A B : List (List ℚ)) : List (List ℚ) :=
  matmulT A (npTranspose B)

/-- `paddle.transpose(x, [1, 0, 2])`: swap the first two axes of a
(rectangular) rank-3 tensor, the extent of axis 1 read off the first
element as the framework reads it off the shape. -/
def transpose102 (m : List (List (List ℚ))) : List (List (List ℚ)) :=
  (List.range (m.headD []).length).map (fun j => m.filterMap (fun plane => plane.get? j))

/-- `AttentionDecoderCell.attention` (lines 45-62), translated line by line:
unsqueeze the query at axis 1; project `enc_output` through the
`dec_memory_w` fc (size `hidden_size`, flattened over two dims) to the
memory; batched `matmul(query, memory, transpose_y=True)`; when a mask is
given, transpose to `[1, batch, src]`, add `mask * 1000000000` (broadcast
over axis 0), transpose back; softmax along the last axis; batched
`matmul(weight, memory)`. -/
def attention (e : ℚ → ℚ) (hiddenSize : Nat) (memW : List (List ℚ)) (memB : List ℚ)
    (query : List (List ℚ)) (encOutput : List (List (List ℚ)))
    (mask : Option (List (List ℚ))) : List (List (List ℚ)) :=
  let query1 := query.map (fun q => [q])
  let memory := encOutput.map (fun seq => seq.map (fcSized hiddenSize memW memB))
  let attn := List.zipWith matmulT query1 memory
  let attn :=
    match mask with
    | none => attn
    | some mk =>
      let a := transpose102 attn
      let a := a.map (fun plane =>
        List.zipWith (List.zipWith (fun x y => x + y * 1000000000)) plane mk)
      transpose102 a
  let weight := attn.map (fun plane => plane.map (softmax e))
  List.zipWith matmul weight memory

/-- The spec's description of `attention`, batch element by batch element:
project `enc_output` to a memory tensor with the learned linear layer, form
the scores as the matrix product of the query with the transposed memory,
add `mask * 1000000000` to the scores when a padding mask is given, take
softmax weights, and return the matrix product of the weights with the
memory. -/
def attentionSpecOne (e : ℚ → ℚ) (hiddenSize : Nat) (memW : List (List ℚ))
    (memB : List ℚ) (q : List ℚ) (enc : List (List ℚ)) (maskRow : Option (List ℚ)) :
    List (List ℚ) :=
  let memory := enc.map (fcSized hiddenSize memW memB)
  let scores := memory.map (fun mrow => dot q mrow)
  let scores :=
    match maskRow with
    | none => scores
    | some mr => List.zipWith (fun x y => x + y * 1000000000) scores mr
  matmul [softmax e scores] memory

/-- The spec's `attention` over the whole batch: `attentionSpecOne` zipped
over query rows, encoder outputs and mask rows. -/
def attentionSpec (e : ℚ → ℚ) (hiddenSize : Nat) (memW : List (List ℚ))
    (memB : List ℚ) (query : List (List ℚ)) (encOutput : List (List (List ℚ)))
    (mask : Option (List (List ℚ))) : List (List (List ℚ)) :=
  match mask with
  | none =>
    List.zipWith (fun q enc => attentionSpecOne e hiddenSize memW memB q enc none)
      query encOutput
  | some mk =>
    List.zipWith (fun p mr => attentionSpecOne e hiddenSize memW memB p.1 p.2 (some mr))
      (query.zip encOutput) mk

end TextGen

namespace PoseModule

/-- Modelled from the spec: the module implementation of
`human_pose_estimation_resnet50_mpii` is not under `src/` (only its test
is).  An entry of the `images` argument of `keypoint_detection` is either a
decoded in-memory image array or, erroneously, a string. -/
inductive ImageArg where
  | array (pixels : List (List Nat))
  | str (s : String)
deriving Repr, DecidableEq

/-- Modelled from the spec: the Python exceptions the spec says surface from
the module — an assertion failure for a missing image file, an attribute
error for a string passed where an image object is expected. -/
inductive PyError where
  | assertionError
  | attributeError
deriving Repr, DecidableEq

/-- Modelled from the spec: one per-image result, whose `data` field is the
dictionary of keypoints (keypoint name to coordinates). -/
structure KeypointResult where
  data : List (String × (ℚ × ℚ))
deriving Repr

/-- Modelled from the spec: the loaded hub module.  The pretrained model's
forward pass and the image decoder are external to the repository and kept
abstract. -/
structure Module where
  forward : List (List Nat) → List (String × (ℚ × ℚ))
  readImage : String → List (List Nat)

/-- Modelled from the spec: load the `paths` argument — each path is
asserted to name an existing image file (a missing file is an
assertion-style failure) and decoded. -/
def loadPaths (m : Module) (fileExists : String → Bool) :
    List String → Except PyError (List (List (List Nat)))
  | [] => .ok []
  | p :: ps =>
    if fileExists p then
      match loadPaths m fileExists ps with
      | .ok rest => .ok (m.readImage p :: rest)
      | .error err => .error err
    else .error .assertionError

/-- Modelled from the spec: load the `images` argument — a string where an
image array is expected is an attribute-style failure. -/
def loadImages : List ImageArg → Except PyError (List (List (List Nat)))
  | [] => .ok []
  | .array a :: rest =>
    match loadImages rest with
    | .ok imgs => .ok (a :: imgs)
    | .error err => .error err
  | .str _ :: _ => .error .attributeError

/-- Modelled from the spec: `keypoint_detection` accepts image paths or
in-memory images plus the optional `visualization` and `use_gpu` flags, and
returns one result per input image whose `data` field is the keypoint
dictionary computed by the model's forward pass; the flags select rendering
and device only and do not change the returned data. -/
def keypoint_detection (m : Module) (fileExists : String → Bool)
    (paths : List String) (images : List ImageArg)
    (visualization use_gpu : Bool) : Except PyError (List KeypointResult) :=
  match loadPaths m fileExists paths with
  | .error err => .error err
  | .ok fromPaths =>
    match loadImages images with
    | .error err => .error err
    | .ok fromImages =>
      .ok ((fromPaths ++ fromImages).map (fun img => { data := m.forward img }))

/-- Modelled from the spec: the two framework-specific artifact files an
inference-model export writes for a destination path `dest`. -/
def artifactFiles (dest : String) : List String :=
  [dest ++ ".pdmodel", dest ++ ".pdiparams"]

/-- Modelled from the spec: `save_inference_model` serializes the model to
the two artifact files at the destination path, adding them to the files on
disk. -/
def save_inference_model (dest : String) (disk : List String) : List String :=
  disk ++ artifactFiles dest

end PoseModule

/-! ## General lemmas about the embedded primitives -/

namespace TextGen

theorem fcSized_length (size : Nat) (W : List (List ℚ)) (b x : List ℚ) :
    (fcSized size W b x).length = size := by
  simp [fcSized]

theorem softmax_length (e : ℚ → ℚ) (v : List ℚ) :
    (softmax e v).length = v.length := by
  simp [softmax]

theorem argmaxIdx_lt {v : List ℚ} (h : v ≠ []) : argmaxIdx v < v.length := by
  unfold argmaxIdx
  cases hv : v.argmax id with
  | none => exact absurd (List.argmax_eq_none.mp hv) h
  | some x => exact List.indexOf_lt_length.mpr (List.argmax_mem hv)

theorem npTranspose_length {α : Type} (m : List (List α)) :
    (npTranspose m).length = (m.headD []).length := by
  simp [npTranspose]

theorem npTranspose_row_le {α : Type} {m : List (List α)} {row : List α}
    (h : row ∈ npTranspose m) : row.length ≤ m.length := by
  simp only [npTranspose, List.mem_map, List.mem_range] at h
  obtain ⟨j, -, rfl⟩ := h
  exact List.length_filterMap_le _ _

theorem npTranspose_mem {α : Type} {m : List (List α)} {row : List α}
    (hrow : row ∈ npTranspose m) {x : α} (hx : x ∈ row) : ∃ r ∈ m, x ∈ r := by
  simp only [npTranspose, List.mem_map, List.mem_range] at hrow
  obtain ⟨j, -, rfl⟩ := hrow
  obtain ⟨r, hr, hget⟩ := List.mem_filterMap.mp hx
  exact ⟨r, hr, List.get?_mem hget⟩

theorem pySliceTo_subset {α : Type} {xs : List α} {stop : Int} {x : α}
    (h : x ∈ pySliceTo xs stop) : x ∈ xs := by
  unfold pySliceTo at h
  split at h <;> exact List.take_subset _ _ h

theorem pySliceTo_length_le {α : Type} (xs : List α) {stop : Int} (hk : 0 ≤ stop) :
    (pySliceTo xs stop).length ≤ stop.toNat := by
  unfold pySliceTo
  rw [if_neg (by omega)]
  exact List.length_take_le _ _

theorem pySliceTo_zero {α : Type} (xs : List α) : pySliceTo xs 0 = [] := by
  simp [pySliceTo]

theorem pySlice_length_le {α : Type} (xs : List α) {a b : Int} (ha : 0 ≤ a) (hb : 0 ≤ b) :
    (pySlice xs a b).length ≤ (b - a).toNat := by
  unfold pySlice pySliceTo
  rw [if_neg (by omega)]
  simp only [List.length_drop, List.length_take]
  omega

theorem pySlice_self_empty {α : Type} (xs : List α) {a : Int} (ha : 0 ≤ a) :
    pySlice xs a a = [] := by
  have h := pySlice_length_le xs ha ha
  exact List.eq_nil_of_length_eq_zero (by omega)

end TextGen

namespace TextGen

theorem beamsStep_fst_length {σ : Type} (cell : σ → Nat → σ × List ℚ)
    (beams : List (σ × Nat)) : (beamsStep cell beams).1.length = beams.length := by
  simp [beamsStep]

theorem beamsStep_snd_length {σ : Type} (cell : σ → Nat → σ × List ℚ)
    (beams : List (σ × Nat)) : (beamsStep cell beams).2.length = beams.length := by
  simp [beamsStep]

theorem dynamicDecode_length_le {σ : Type} (cell : σ → Nat → σ × List ℚ)
    (endId fuel : Nat) : ∀ beams : List (σ × Nat),
    (dynamicDecode cell endId fuel beams).length ≤ fuel := by
  induction fuel with
  | zero => intro beams; simp [dynamicDecode]
  | succ n ih =>
    intro beams
    rw [dynamicDecode]
    split
    · simp
    · simpa using Nat.succ_le_succ (ih _)

theorem dynamicDecode_row_length {σ : Type} (cell : σ → Nat → σ × List ℚ)
    (endId fuel : Nat) : ∀ (beams : List (σ × Nat)) (row : List Nat),
    row ∈ dynamicDecode cell endId fuel beams → row.length = beams.length := by
  induction fuel with
  | zero => intro beams row h; simp [dynamicDecode] at h
  | succ n ih =>
    intro beams row h
    rw [dynamicDecode] at h
    split at h
    · rw [List.mem_singleton] at h
      rw [h]; exact beamsStep_snd_length cell beams
    · rcases List.mem_cons.mp h with h | h
      · rw [h]; exact beamsStep_snd_length cell beams
      · rw [ih _ _ h]; exact beamsStep_fst_length cell beams

theorem dynamicDecode_ne_nil {σ : Type} (cell : σ → Nat → σ × List ℚ)
    (endId : Nat) {fuel : Nat} (hf : 1 ≤ fuel) (beams : List (σ × Nat)) :
    dynamicDecode cell endId fuel beams ≠ [] := by
  obtain ⟨n, rfl⟩ : ∃ n, fuel = n + 1 := ⟨fuel - 1, by omega⟩
  rw [dynamicDecode]
  split <;> simp

theorem dynamicDecode_head_length {σ : Type} (cell : σ → Nat → σ × List ℚ)
    (endId : Nat) {fuel : Nat} (hf : 1 ≤ fuel) (beams : List (σ × Nat)) :
    ((dynamicDecode cell endId fuel beams).headD []).length = beams.length := by
  cases hd : dynamicDecode cell endId fuel beams with
  | nil => exact absurd hd (dynamicDecode_ne_nil cell endId hf beams)
  | cons r rest =>
    have : r ∈ dynamicDecode cell endId fuel beams := by rw [hd]; exact List.mem_cons_self r rest
    simpa using dynamicDecode_row_length cell endId fuel beams r this

theorem beamsStep_predictCell_tok_lt {σ : Type} (cell : σ → Nat → σ × List ℚ)
    {vocab : Nat} (hv : 0 < vocab) (W : List (List ℚ)) (b : List ℚ)
    (beams : List (σ × Nat)) :
    ∀ t ∈ (beamsStep (predictCell cell vocab W b) beams).2, t < vocab := by
  intro t ht
  simp only [beamsStep, List.map_map, List.mem_map, Function.comp] at ht
  obtain ⟨bm, -, rfl⟩ := ht
  have hlen : (fcSized vocab W b (cell bm.1 bm.2).2).length = vocab :=
    fcSized_length vocab W b _
  have hne : fcSized vocab W b (cell bm.1 bm.2).2 ≠ [] := by
    intro hnil
    rw [hnil] at hlen
    simp at hlen
    omega
  have := argmaxIdx_lt hne
  rw [hlen] at this
  simpa [predictCell] using this

theorem dynamicDecode_tok_lt {σ : Type} (cell : σ → Nat → σ × List ℚ)
    {vocab : Nat} (hv : 0 < vocab) (W : List (List ℚ)) (b : List ℚ)
    (endId fuel : Nat) : ∀ (beams : List (σ × Nat)) (row : List Nat),
    row ∈ dynamicDecode (predictCell cell vocab W b) endId fuel beams →
    ∀ t ∈ row, t < vocab := by
  induction fuel with
  | zero => intro beams row h; simp [dynamicDecode] at h
  | succ n ih =>
    intro beams row h
    rw [dynamicDecode] at h
    split at h
    · rw [List.mem_singleton] at h
      rw [h]; exact beamsStep_predictCell_tok_lt cell hv W b beams
    · rcases List.mem_cons.mp h with h | h
      · rw [h]; exact beamsStep_predictCell_tok_lt cell hv W b beams
      · exact ih _ _ h

end TextGen

namespace TextGen

/-- Claim C8: constructing `TextGenerationTask` without passing
`hidden_size` stores 512 in `self.hidden_size`, although the class
docstring documents the default decoder rnn hidden size as 128. -/
theorem hidden_size_default_is_512_not_docstring_128 (max_seq_len num_classes : Nat) :
    (TextGenerationTask.initDefaults max_seq_len num_classes).hidden_size = 512 ∧
    docstringDefaultHiddenSize = 128 ∧
    (TextGenerationTask.initDefaults max_seq_len num_classes).hidden_size ≠
      docstringDefaultHiddenSize := by
  refine ⟨rfl, rfl, ?_⟩
  intro h
  simp [TextGenerationTask.initDefaults, TextGenerationTask.init,
    docstringDefaultHiddenSize] at h

/-- Claim C8, instantiated: the default-constructed task at concrete
required arguments. -/
theorem hidden_size_default_witness :
    (TextGenerationTask.initDefaults 40 12).hidden_size = 512 ∧
    docstringDefaultHiddenSize = 128 ∧
    (TextGenerationTask.initDefaults 40 12).hidden_size ≠ docstringDefaultHiddenSize :=
  hidden_size_default_is_512_not_docstring_128 40 12

end TextGen

namespace TextGen

theorem calcMetricScores_all_bleu (cb : List (List String) → List (List String) → Nat → ℚ × ℚ)
    (labels results : List (List String)) :
    ∀ ms : List String, (∀ m ∈ ms, m = "bleu") →
    calcMetricScores cb labels results ms =
      .ok (ms.map (fun _ => ("bleu", (cb labels results 1).1))) := by
  intro ms
  induction ms with
  | nil => intro _; rfl
  | cons m rest ih =>
    intro h
    have hm : m = "bleu" := h m (List.mem_cons_self m rest)
    have hrest := ih (fun x hx => h x (List.mem_cons_of_mem m hx))
    rw [calcMetricScores, if_pos hm, hrest]
    simp

theorem calcMetricScores_bad_metric (cb : List (List String) → List (List String) → Nat → ℚ × ℚ)
    (labels results : List (List String)) :
    ∀ ms : List String, (∃ m ∈ ms, m ≠ "bleu") →
    ∃ m, m ∈ ms ∧ m ≠ "bleu" ∧
      calcMetricScores cb labels results ms = .error ("Not Support Metric: " ++ m) := by
  intro ms
  induction ms with
  | nil => rintro ⟨m, hm, -⟩; exact absurd hm (List.not_mem_nil m)
  | cons m rest ih =>
    rintro ⟨x, hx, hxne⟩
    by_cases hm : m = "bleu"
    · have hxrest : x ∈ rest := by
        rcases List.mem_cons.mp hx with h | h
        · exact absurd (h ▸ hm) hxne
        · exact h
      obtain ⟨y, hy, hyne, hcalc⟩ := ih ⟨x, hxrest, hxne⟩
      refine ⟨y, List.mem_cons_of_mem m hy, hyne, ?_⟩
      rw [calcMetricScores, if_pos hm, hcalc]
    · exact ⟨m, List.mem_cons_self m rest, hm, by rw [calcMetricScores, if_neg hm]⟩

/-- Claim C9: constructing the task with `metrics_choices` left at the
string `default` stores the metric list `[bleu]`; the metric loop of
`_calculate_metrics` computes the bleu score with `compute_bleu` at
`max_order = 1` and raises a `ValueError` (modelled as the `.error` branch
carrying the exception message) as soon as `metrics_choices` holds any
name other than `bleu`. -/
theorem metrics_default_is_bleu_and_others_rejected
    (max_seq_len num_classes : Nat)
    (cb : List (List String) → List (List String) → Nat → ℚ × ℚ)
    (labels results : List (List String)) (ms : List String)
    (hbad : ∃ m ∈ ms, m ≠ "bleu") :
    (TextGenerationTask.initDefaults max_seq_len num_classes).metrics_choices = ["bleu"] ∧
    calcMetricScores cb labels results ["bleu"] =
      .ok [("bleu", (cb labels results 1).1)] ∧
    ∃ m, m ∈ ms ∧ m ≠ "bleu" ∧
      calcMetricScores cb labels results ms = .error ("Not Support Metric: " ++ m) := by
  refine ⟨rfl, ?_, calcMetricScores_bad_metric cb labels results ms hbad⟩
  have := calcMetricScores_all_bleu cb labels results ["bleu"] (by simp)
  simpa using this

/-- Claim C9, instantiated: a concrete scorer, concrete label/inference
lists, and the metric list `[bleu, rouge]`, whose second entry is rejected. -/
theorem metrics_default_witness :
    (TextGenerationTask.initDefaults 40 12).metrics_choices = ["bleu"] ∧
    calcMetricScores (fun _ _ _ => (9, 0)) [["a"]] [["a"]] ["bleu"] =
      .ok [("bleu", ((fun (_ _ : List (List String)) (_ : Nat) => ((9 : ℚ), (0 : ℚ))) [["a"]] [["a"]] 1).1)] ∧
    ∃ m, m ∈ ["bleu", "rouge"] ∧ m ≠ "bleu" ∧
      calcMetricScores (fun _ _ _ => (9, 0)) [["a"]] [["a"]] ["bleu", "rouge"] =
        .error ("Not Support Metric: " ++ m) :=
  metrics_default_is_bleu_and_others_rejected 40 12 (fun _ _ _ => (9, 0)) [["a"]] [["a"]]
    ["bleu", "rouge"] ⟨"rouge", by simp, by simp⟩

end TextGen

namespace TextGen

theorem postprocessing_single (labelList : List String) (infers : List (List (List Nat)))
    (seqLens : List Int) :
    postprocessing labelList [⟨infers, seqLens⟩] =
      infers.enum.map (fun p => (npTranspose p.2).map (fun beamInfer =>
        (pySliceTo beamInfer (seqLens.getD p.1 0 - 2)).map
          (fun infer => labelList.getD infer ""))) := by
  simp [postprocessing]

theorem postprocessing_single_getD (labelList : List String)
    (infers : List (List (List Nat))) (seqLens : List Int) {i : Nat}
    (hi : i < infers.length) :
    (postprocessing labelList [⟨infers, seqLens⟩]).getD i [] =
      (npTranspose (infers.getD i [])).map (fun beamInfer =>
        (pySliceTo beamInfer (seqLens.getD i 0 - 2)).map
          (fun infer => labelList.getD infer "")) := by
  rw [postprocessing_single]
  have hlen : i < (infers.enum.map (fun p => (npTranspose p.2).map (fun beamInfer =>
      (pySliceTo beamInfer (seqLens.getD p.1 0 - 2)).map
        (fun infer => labelList.getD infer "")))).length := by
    simpa using hi
  rw [List.getD_eq_getElem _ _ hlen, List.getElem_map, List.getElem_enum,
    List.getD_eq_getElem _ _ hi]

/-- Claim C10: for a sample `i` with recorded length `seq_lens[i] ≥ 2`,
every beam sequence `_postprocessing` returns for it is the first
`seq_lens[i] - 2` decoded ids mapped to labels — hence has at most
`seq_lens[i] - 2` tokens and is empty at `seq_lens[i] = 2` — and
`_calculate_metrics` truncates its label and inference sequences by the
same `seq_len - 2` rule. -/
theorem postprocessing_and_metrics_truncate (labelList : List String)
    (infers : List (List (List Nat))) (seqLens : List Int)
    (i : Nat) (hi : i < infers.length) (h2 : 2 ≤ seqLens.getD i 0)
    (npLabels npInfers : List Nat) (npLens : List Int)
    (j : Nat) (hj : j < npLens.length) (hj2 : 2 ≤ npLens.getD j 0) :
    (∀ seq ∈ (postprocessing labelList [⟨infers, seqLens⟩]).getD i [],
        seq.length ≤ (seqLens.getD i 0 - 2).toNat ∧
        (seqLens.getD i 0 = 2 → seq = [])) ∧
    ((calcMetricsExtract labelList npLabels npInfers npLens).1.getD j []).length ≤
      (npLens.getD j 0 - 2).toNat ∧
    ((calcMetricsExtract labelList npLabels npInfers npLens).2.getD j []).length ≤
      (npLens.getD j 0 - 2).toNat ∧
    (npLens.getD j 0 = 2 →
      (calcMetricsExtract labelList npLabels npInfers npLens).1.getD j [] = [] ∧
      (calcMetricsExtract labelList npLabels npInfers npLens).2.getD j [] = []) := by
  have hslice : ∀ xs : List Nat, (pySlice xs (j * (npLabels.length / npLens.length) : Nat)
      ((j * (npLabels.length / npLens.length) : Nat) + npLens.getD j 0 - 2)).length ≤
      (npLens.getD j 0 - 2).toNat := by
    intro xs
    have := pySlice_length_le xs
      (a := (j * (npLabels.length / npLens.length) : Nat)) (b :=
        (j * (npLabels.length / npLens.length) : Nat) + npLens.getD j 0 - 2)
      (by positivity) (by omega)
    have harith : ((j * (npLabels.length / npLens.length) : Nat) + npLens.getD j 0 - 2 -
        (j * (npLabels.length / npLens.length) : Nat)) = npLens.getD j 0 - 2 := by ring
    rwa [harith] at this
  have hfst : (calcMetricsExtract labelList npLabels npInfers npLens).1.getD j [] =
      (pySlice npLabels (j * (npLabels.length / npLens.length) : Nat)
        ((j * (npLabels.length / npLens.length) : Nat) + npLens.getD j 0 - 2)).map
        (fun id => labelList.getD id "") := by
    simp only [calcMetricsExtract]
    have hlen : j < ((List.range npLens.length).map (fun i =>
        (pySlice npLabels (i * (npLabels.length / npLens.length) : Nat)
          ((i * (npLabels.length / npLens.length) : Nat) + npLens.getD i 0 - 2)).map
          (fun id => labelList.getD id ""))).length := by simpa using hj
    rw [List.getD_eq_getElem _ _ hlen, List.getElem_map, List.getElem_range]
  have hsnd : (calcMetricsExtract labelList npLabels npInfers npLens).2.getD j [] =
      (pySlice npInfers (j * (npLabels.length / npLens.length) : Nat)
        ((j * (npLabels.length / npLens.length) : Nat) + npLens.getD j 0 - 2)).map
        (fun id => labelList.getD id "") := by
    simp only [calcMetricsExtract]
    have hlen : j < ((List.range npLens.length).map (fun i =>
        (pySlice npInfers (i * (npLabels.length / npLens.length) : Nat)
          ((i * (npLabels.length / npLens.length) : Nat) + npLens.getD i 0 - 2)).map
          (fun id => labelList.getD id ""))).length := by simpa using hj
    rw [List.getD_eq_getElem _ _ hlen, List.getElem_map, List.getElem_range]
  refine ⟨?_, ?_, ?_, ?_⟩
  · intro seq hseq
    rw [postprocessing_single_getD labelList infers seqLens hi] at hseq
    obtain ⟨beamInfer, -, rfl⟩ := List.mem_map.mp hseq
    constructor
    · rw [List.length_map]
      exact pySliceTo_length_le beamInfer (by omega)
    · intro heq
      rw [heq]
      norm_num [pySliceTo_zero]
  · rw [hfst, List.length_map]
    exact hslice npLabels
  · rw [hsnd, List.length_map]
    exact hslice npInfers
  · intro heq
    constructor
    · rw [hfst, heq]
      rw [show ((j * (npLabels.length / npLens.length) : Nat) + 2 - 2 : Int) =
        (j * (npLabels.length / npLens.length) : Nat) by ring]
      rw [pySlice_self_empty _ (by positivity)]
      rfl
    · rw [hsnd, heq]
      rw [show ((j * (npLabels.length / npLens.length) : Nat) + 2 - 2 : Int) =
        (j * (npLabels.length / npLens.length) : Nat) by ring]
      rw [pySlice_self_empty _ (by positivity)]
      rfl

/-- Claim C10, instantiated: one sample whose `[time, beam]` array is
3 steps by 2 beams with `seq_lens = [3]`, and a metrics batch of two
samples with `np_lens = [4, 2]`. -/
theorem postprocessing_truncate_witness :
    (∀ seq ∈ (postprocessing ["a", "b"] [⟨[[[0, 1], [1, 0], [0, 0]]], [3]⟩]).getD 0 [],
        seq.length ≤ (([3] : List Int).getD 0 0 - 2).toNat ∧
        (([3] : List Int).getD 0 0 = 2 → seq = [])) ∧
    ((calcMetricsExtract ["a", "b"] [0, 1, 0, 1, 1, 0, 1, 0] [1, 0, 1, 0, 0, 1, 0, 1]
        [4, 2]).1.getD 1 []).length ≤ (([4, 2] : List Int).getD 1 0 - 2).toNat ∧
    ((calcMetricsExtract ["a", "b"] [0, 1, 0, 1, 1, 0, 1, 0] [1, 0, 1, 0, 0, 1, 0, 1]
        [4, 2]).2.getD 1 []).length ≤ (([4, 2] : List Int).getD 1 0 - 2).toNat ∧
    (([4, 2] : List Int).getD 1 0 = 2 →
      (calcMetricsExtract ["a", "b"] [0, 1, 0, 1, 1, 0, 1, 0] [1, 0, 1, 0, 0, 1, 0, 1]
        [4, 2]).1.getD 1 [] = [] ∧
      (calcMetricsExtract ["a", "b"] [0, 1, 0, 1, 1, 0, 1, 0] [1, 0, 1, 0, 0, 1, 0, 1]
        [4, 2]).2.getD 1 [] = []) :=
  postprocessing_and_metrics_truncate ["a", "b"] [[[0, 1], [1, 0], [0, 0]]] [3] 0
    (by decide) (by decide) [0, 1, 0, 1, 1, 0, 1, 0] [1, 0, 1, 0, 0, 1, 0, 1] [4, 2] 1
    (by decide) (by decide)

end TextGen

namespace PoseModule

theorem loadPaths_ok (m : Module) (fileExists : String → Bool) :
    ∀ paths : List String, (∀ p ∈ paths, fileExists p = true) →
    loadPaths m fileExists paths = .ok (paths.map m.readImage) := by
  intro paths
  induction paths with
  | nil => intro _; rfl
  | cons p ps ih =>
    intro h
    have hp : fileExists p = true := h p (List.mem_cons_self p ps)
    have hps := ih (fun q hq => h q (List.mem_cons_of_mem p hq))
    rw [loadPaths, if_pos hp, hps]
    rfl

theorem loadPaths_missing (m : Module) (fileExists : String → Bool) :
    ∀ paths : List String, (∃ p ∈ paths, fileExists p = false) →
    loadPaths m fileExists paths = .error .assertionError := by
  intro paths
  induction paths with
  | nil => rintro ⟨p, hp, -⟩; exact absurd hp (List.not_mem_nil p)
  | cons p ps ih =>
    rintro ⟨q, hq, hqf⟩
    by_cases hp : fileExists p = true
    · have hqs : q ∈ ps := by
        rcases List.mem_cons.mp hq with h | h
        · rw [h] at hqf; rw [hqf] at hp; exact absurd hp (by simp)
        · exact h
      rw [loadPaths, if_pos hp, ih ⟨q, hqs, hqf⟩]
    · rw [loadPaths, if_neg hp]

theorem loadImages_arrays :
    ∀ images : List ImageArg, (∀ img ∈ images, ∃ a, img = ImageArg.array a) →
    ∃ imgs, loadImages images = .ok imgs ∧ imgs.length = images.length := by
  intro images
  induction images with
  | nil => intro _; exact ⟨[], rfl, rfl⟩
  | cons img rest ih =>
    intro h
    obtain ⟨a, rfl⟩ := h img (List.mem_cons_self img rest)
    obtain ⟨imgs, himgs, hlen⟩ := ih (fun x hx => h x (List.mem_cons_of_mem _ hx))
    refine ⟨a :: imgs, ?_, by simpa using hlen⟩
    rw [loadImages, himgs]

theorem loadImages_string :
    ∀ images : List ImageArg, (∃ s, ImageArg.str s ∈ images) →
    loadImages images = .error .attributeError := by
  intro images
  induction images with
  | nil => rintro ⟨s, hs⟩; exact absurd hs (List.not_mem_nil _)
  | cons img rest ih =>
    rintro ⟨s, hs⟩
    cases img with
    | str t => rw [loadImages]
    | array a =>
      have hrest : ImageArg.str s ∈ rest := by
        rcases List.mem_cons.mp hs with h | h
        · exact absurd h (by simp)
        · exact h
      rw [loadImages, ih ⟨s, hrest⟩]

/-- Claim C1: with every path naming an existing file and every in-memory
entry an image array, `keypoint_detection` — under any combination of the
`visualization` and `use_gpu` flags — returns one result per input image,
and each result's `data` field is the keypoint dictionary the forward pass
produced for its image. -/
theorem keypoint_detection_one_result_per_image (m : Module)
    (fileExists : String → Bool) (paths : List String) (images : List ImageArg)
    (visualization use_gpu : Bool)
    (hp : ∀ p ∈ paths, fileExists p = true)
    (hi : ∀ img ∈ images, ∃ a, img = ImageArg.array a) :
    ∃ rs, keypoint_detection m fileExists paths images visualization use_gpu = .ok rs ∧
      rs.length = paths.length + images.length ∧
      ∀ r ∈ rs, ∃ img, r.data = m.forward img := by
  obtain ⟨imgs, himgs, hlen⟩ := loadImages_arrays images hi
  refine ⟨(paths.map m.readImage ++ imgs).map (fun img => { data := m.forward img }), ?_, ?_, ?_⟩
  · rw [keypoint_detection, loadPaths_ok m fileExists paths hp, himgs]
  · simp [hlen]
  · intro r hr
    obtain ⟨img, -, rfl⟩ := List.mem_map.mp hr
    exact ⟨img, rfl⟩

/-- Claim C1, instantiated: one valid path and one image array, flags on. -/
theorem keypoint_detection_one_result_witness :
    ∃ rs, keypoint_detection ⟨fun _ => [("head", (1, 2))], fun _ => [[7]]⟩
        (fun p => p == "tests/test.jpg") ["tests/test.jpg"] [.array [[5]]] true true = .ok rs ∧
      rs.length = ["tests/test.jpg"].length + [ImageArg.array [[5]]].length ∧
      ∀ r ∈ rs, ∃ img, r.data =
        (⟨fun _ => [("head", (1, 2))], fun _ => [[7]]⟩ : Module).forward img :=
  keypoint_detection_one_result_per_image _ _ _ _ true true
    (by intro p hp; simp at hp; simp [hp]) (by rintro img hi; simp at hi; exact ⟨_, hi⟩)

/-- Claim C2: a `paths` list containing a path to a file that does not
exist makes `keypoint_detection` fail with the assertion-style error, for
every such call. -/
theorem keypoint_detection_missing_path_asserts (m : Module)
    (fileExists : String → Bool) (paths : List String) (images : List ImageArg)
    (visualization use_gpu : Bool)
    (h : ∃ p ∈ paths, fileExists p = false) :
    keypoint_detection m fileExists paths images visualization use_gpu =
      .error .assertionError := by
  rw [keypoint_detection, loadPaths_missing m fileExists paths h]

/-- Claim C2, instantiated: the test's `paths=[no.jpg]` on a filesystem
without that file. -/
theorem keypoint_detection_missing_path_witness :
    keypoint_detection ⟨fun _ => [("head", (1, 2))], fun _ => [[7]]⟩
      (fun p => p == "tests/test.jpg") ["no.jpg"] [] false false =
      .error .assertionError :=
  keypoint_detection_missing_path_asserts _ _ _ _ false false
    ⟨"no.jpg", by simp, by decide⟩

/-- Claim C3: an `images` list containing a string where an image array is
expected makes `keypoint_detection` fail with the attribute-style error
instead of returning a result. -/
theorem keypoint_detection_string_image_attr_error (m : Module)
    (fileExists : String → Bool) (images : List ImageArg)
    (visualization use_gpu : Bool)
    (h : ∃ s, ImageArg.str s ∈ images) :
    keypoint_detection m fileExists [] images visualization use_gpu =
      .error .attributeError := by
  rw [keypoint_detection]
  have : loadPaths m fileExists [] = .ok [] := rfl
  rw [this, loadImages_string images h]

/-- Claim C3, instantiated: the test's `images=[test.jpg]` (a string in
place of an array). -/
theorem keypoint_detection_string_image_witness :
    keypoint_detection ⟨fun _ => [("head", (1, 2))], fun _ => [[7]]⟩
      (fun _ => true) [] [.str "test.jpg"] false false = .error .attributeError :=
  keypoint_detection_string_image_attr_error _ _ _ false false
    ⟨"test.jpg", by simp⟩

/-- Claim C4: after `save_inference_model` with a destination path, the
`.pdmodel` and the `.pdiparams` artifacts both exist on disk, each exactly
once (for a destination the disk did not already hold artifacts for), and
exactly these two files were written. -/
theorem save_inference_model_two_artifacts (dest : String) (disk : List String)
    (h1 : (dest ++ ".pdmodel") ∉ disk) (h2 : (dest ++ ".pdiparams") ∉ disk) :
    (artifactFiles dest).length = 2 ∧
    (dest ++ ".pdmodel") ∈ save_inference_model dest disk ∧
    (dest ++ ".pdiparams") ∈ save_inference_model dest disk ∧
    (save_inference_model dest disk).count (dest ++ ".pdmodel") = 1 ∧
    (save_inference_model dest disk).count (dest ++ ".pdiparams") = 1 ∧
    (save_inference_model dest disk).length = disk.length + 2 := by
  have hne : (dest ++ ".pdmodel") ≠ (dest ++ ".pdiparams") := by
    intro h
    have := congrArg String.length h
    rw [String.length_append, String.length_append] at this
    have h8 : ".pdmodel".length = 8 := rfl
    have h10 : ".pdiparams".length = 10 := rfl
    omega
  refine ⟨rfl, ?_, ?_, ?_, ?_, ?_⟩
  · simp [save_inference_model, artifactFiles]
  · simp [save_inference_model, artifactFiles]
  · rw [save_inference_model, List.count_append, List.count_eq_zero_of_not_mem h1]
    simp [artifactFiles, List.count_cons, hne]
  · rw [save_inference_model, List.count_append, List.count_eq_zero_of_not_mem h2]
    simp [artifactFiles, List.count_cons, Ne.symm hne]
  · simp [save_inference_model, artifactFiles]

/-- Claim C4, instantiated: the test's destination `./inference/model` on a
disk holding only the downloaded test image. -/
theorem save_inference_model_witness :
    (artifactFiles "./inference/model").length = 2 ∧
    ("./inference/model" ++ ".pdmodel") ∈
      save_inference_model "./inference/model" ["tests/test.jpg"] ∧
    ("./inference/model" ++ ".pdiparams") ∈
      save_inference_model "./inference/model" ["tests/test.jpg"] ∧
    (save_inference_model "./inference/model" ["tests/test.jpg"]).count
      ("./inference/model" ++ ".pdmodel") = 1 ∧
    (save_inference_model "./inference/model" ["tests/test.jpg"]).count
      ("./inference/model" ++ ".pdiparams") = 1 ∧
    (save_inference_model "./inference/model" ["tests/test.jpg"]).length =
      ["tests/test.jpg"].length + 2 :=
  save_inference_model_two_artifacts "./inference/model" ["tests/test.jpg"]
    (by decide) (by decide)

end PoseModule

namespace TextGen

/-- Claim C6: the default `beam_max_step_num` is 30, the predict branch of
`_build_net` runs `dynamic_decode` from the start token id with the end
token id as stop marker and `beam_max_step_num` as step cap, and every
decoded `[time, beam]` array — hence every beam's decoded sequence, a row
of its transpose — is bounded in length by that cap. -/
theorem beam_search_bounded_by_step_cap {σ : Type} (e : ℚ → ℚ)
    (cell : σ → Nat → σ × List ℚ) (labelList : List String)
    (startToken endToken : String) (outW : List (List ℚ)) (outB : List ℚ)
    (beamSize n : Nat) (initStates : List σ) (decInput : List Nat)
    (max_seq_len num_classes : Nat) :
    (TextGenerationTask.initDefaults max_seq_len num_classes).beam_max_step_num = 30 ∧
    build_net true e cell labelList startToken endToken outW outB beamSize n
        initStates decInput =
      .predictInfers (initStates.map (fun s0 =>
        dynamicDecode (predictCell cell labelList.length outW outB)
          (labelList.indexOf endToken) n
          (List.replicate beamSize (s0, labelList.indexOf startToken)))) ∧
    ∀ sample ∈ initStates.map (fun s0 =>
        dynamicDecode (predictCell cell labelList.length outW outB)
          (labelList.indexOf endToken) n
          (List.replicate beamSize (s0, labelList.indexOf startToken))),
      sample.length ≤ n ∧ ∀ beamSeq ∈ npTranspose sample, beamSeq.length ≤ n := by
  refine ⟨rfl, rfl, ?_⟩
  intro sample hsample
  obtain ⟨s0, -, rfl⟩ := List.mem_map.mp hsample
  refine ⟨dynamicDecode_length_le _ _ _ _, ?_⟩
  intro beamSeq hseq
  exact le_trans (npTranspose_row_le hseq) (dynamicDecode_length_le _ _ _ _)

end TextGen

namespace TextGen

/-- Claim C5: in the predict phase `_build_net` beam-search decodes, and
after `_postprocessing` every input sample yields exactly `beam_size`
decoded token sequences whose tokens all come from the label vocabulary;
outside the predict phase `_build_net` instead returns softmax logits over
the label vocabulary (one softmax row of width `len(_label_list)` per
decoded position). -/
theorem predict_beam_results {σ : Type} (e : ℚ → ℚ) (cell : σ → Nat → σ × List ℚ)
    (labelList : List String) (startToken endToken : String)
    (outW : List (List ℚ)) (outB : List ℚ) (beamSize beamMaxStepNum : Nat)
    (initStates : List σ) (decInput : List Nat) (seqLens : List Int)
    (hvocab : labelList ≠ []) (hstep : 1 ≤ beamMaxStepNum) :
    ∃ infers, build_net true e cell labelList startToken endToken outW outB beamSize
        beamMaxStepNum initStates decInput = .predictInfers infers ∧
      infers.length = initStates.length ∧
      (postprocessing labelList [⟨infers, seqLens⟩]).length = initStates.length ∧
      (∀ sampleRes ∈ postprocessing labelList [⟨infers, seqLens⟩],
        sampleRes.length = beamSize ∧
        ∀ seq ∈ sampleRes, ∀ tok ∈ seq, tok ∈ labelList) ∧
      ∃ logitsOut, build_net false e cell labelList startToken endToken outW outB beamSize
          beamMaxStepNum initStates decInput = .trainLogits logitsOut ∧
        ∀ sample ∈ logitsOut, ∀ row ∈ sample,
          row.length = labelList.length ∧ ∃ z, row = softmax e z := by
  have hv : 0 < labelList.length := List.length_pos.mpr hvocab
  refine ⟨initStates.map (fun s0 =>
      dynamicDecode (predictCell cell labelList.length outW outB)
        (labelList.indexOf endToken) beamMaxStepNum
        (List.replicate beamSize (s0, labelList.indexOf startToken))),
    rfl, by simp, ?_, ?_, ?_⟩
  · rw [postprocessing_single]
    simp
  · intro sampleRes hres
    rw [postprocessing_single] at hres
    obtain ⟨p, hp, rfl⟩ := List.mem_map.mp hres
    have hp2 : p.2 ∈ initStates.map (fun s0 =>
        dynamicDecode (predictCell cell labelList.length outW outB)
          (labelList.indexOf endToken) beamMaxStepNum
          (List.replicate beamSize (s0, labelList.indexOf startToken))) := by
      have := List.mem_enum_iff_getElem?.mp hp
      exact List.get?_mem (by rw [List.get?_eq_getElem?]; exact this)
    obtain ⟨s0, -, hdec⟩ := List.mem_map.mp hp2
    constructor
    · rw [List.length_map, npTranspose_length, ← hdec,
        dynamicDecode_head_length _ _ hstep]
      simp
    · intro seq hseq tok htok
      obtain ⟨beamInfer, hbeam, rfl⟩ := List.mem_map.mp hseq
      obtain ⟨id, hid, rfl⟩ := List.mem_map.mp htok
      have hid2 : id ∈ beamInfer := pySliceTo_subset hid
      obtain ⟨r, hr, hidr⟩ := npTranspose_mem hbeam hid2
      rw [← hdec] at hr
      have hlt : id < labelList.length :=
        dynamicDecode_tok_lt cell hv outW outB _ _ _ _ hr id hidr
      rw [List.getD_eq_getElem _ _ hlt]
      exact List.getElem_mem hlt
  · refine ⟨initStates.map (fun s0 =>
      (rnnScan cell s0 decInput).map (fun h =>
        softmax e (fcSized labelList.length outW outB h))), rfl, ?_⟩
    intro sample hsample row hrow
    obtain ⟨s0, -, rfl⟩ := List.mem_map.mp hsample
    obtain ⟨h, -, rfl⟩ := List.mem_map.mp hrow
    exact ⟨by rw [softmax_length, fcSized_length], _, rfl⟩

/-- Claim C5, instantiated: a two-word vocabulary, two samples, two beams,
the default step cap 30; the conclusion is obtained by applying the general
theorem at this input. -/
theorem predict_beam_results_witness :
    ∃ infers, build_net true id (fun (s : Unit) (_ : Nat) => (s, [1, 2]))
        ["<s>", "</s>"] "<s>" "</s>" [[1, 0], [0, 1]] [0, 0] 2 30
        [(), ()] [0, 1] = .predictInfers infers ∧
      infers.length = [(), ()].length ∧
      (postprocessing ["<s>", "</s>"] [⟨infers, [3, 4]⟩]).length = [(), ()].length ∧
      (∀ sampleRes ∈ postprocessing ["<s>", "</s>"] [⟨infers, [3, 4]⟩],
        sampleRes.length = 2 ∧
        ∀ seq ∈ sampleRes, ∀ tok ∈ seq, tok ∈ ["<s>", "</s>"]) ∧
      ∃ logitsOut, build_net false id (fun (s : Unit) (_ : Nat) => (s, [1, 2]))
          ["<s>", "</s>"] "<s>" "</s>" [[1, 0], [0, 1]] [0, 0] 2 30
          [(), ()] [0, 1] = .trainLogits logitsOut ∧
        ∀ sample ∈ logitsOut, ∀ row ∈ sample,
          row.length = (["<s>", "</s>"] : List String).length ∧
          ∃ z, row = softmax id z :=
  predict_beam_results id (fun s _ => (s, [1, 2])) ["<s>", "</s>"] "<s>" "</s>"
    [[1, 0], [0, 1]] [0, 0] 2 30 [(), ()] [0, 1] [3, 4] (by decide) (by decide)

end TextGen

namespace TextGen

theorem range_map_getD {α β : Type} (g : α → β) (d : α) :
    ∀ l : List α, (List.range l.length).map (fun j => g (l.getD j d)) = l.map g := by
  intro l
  induction l with
  | nil => rfl
  | cons x xs ih =>
    rw [List.length_cons, List.range_succ_eq_map, List.map_cons, List.map_map]
    exact congrArg (List.cons (g x)) ih

theorem transpose102_singleton (P : List (List ℚ)) :
    transpose102 [P] = P.map (fun row => [row]) := by
  unfold transpose102
  rw [List.headD_cons]
  rw [← range_map_getD (fun row => [row]) ([] : List ℚ) P]
  apply List.map_congr_left
  intro j hj
  rw [List.mem_range] at hj
  rw [List.filterMap_cons, List.filterMap_nil]
  rw [List.get?_eq_getElem?, List.getElem?_eq_getElem hj, List.getD_eq_getElem _ _ hj]

theorem transpose102_map_singleton {S : List (List ℚ)} (hS : S ≠ []) :
    transpose102 (S.map (fun s => [s])) = [S] := by
  obtain ⟨s, S', rfl⟩ := List.exists_cons_of_ne_nil hS
  unfold transpose102
  simp only [List.map_cons, List.headD_cons, List.length_cons, List.length_nil,
    Nat.zero_add, List.range_succ, List.range_zero, List.nil_append, List.map_nil]
  congr 1
  rw [show ([s] :: List.map (fun t => [t]) S') = List.map (fun t => [t]) (s :: S') from rfl,
    List.filterMap_map]
  exact List.filterMap_some _

end TextGen

namespace TextGen

theorem zipWith_matmulT_unsqueeze (query : List (List ℚ)) (memory : List (List (List ℚ))) :
    List.zipWith matmulT (query.map (fun q => [q])) memory =
      (List.zipWith (fun q M => M.map (fun mrow => dot q mrow)) query memory).map
        (fun s => [s]) := by
  rw [List.zipWith_map_left, List.map_zipWith]
  rfl

theorem attention_nomask_zip (e : ℚ → ℚ) (hd : Nat) (W : List (List ℚ)) (b : List ℚ) :
    ∀ (query : List (List ℚ)) (enc : List (List (List ℚ))),
    List.zipWith matmul
      ((List.zipWith (fun q M => M.map (fun mrow => dot q mrow)) query
          (enc.map (fun seq => seq.map (fcSized hd W b)))).map (fun s => [softmax e s]))
      (enc.map (fun seq => seq.map (fcSized hd W b))) =
    List.zipWith (fun q en => attentionSpecOne e hd W b q en none) query enc := by
  intro query
  induction query with
  | nil => intro enc; rfl
  | cons q qs ih =>
    intro enc
    cases enc with
    | nil => rfl
    | cons en ens =>
      simp only [List.map_cons, List.zipWith_cons_cons]
      congr 1
      exact ih ens

theorem attention_mask_zip (e : ℚ → ℚ) (hd : Nat) (W : List (List ℚ)) (b : List ℚ) :
    ∀ (query : List (List ℚ)) (enc : List (List (List ℚ))) (mk : List (List ℚ)),
    List.zipWith matmul
      ((List.zipWith (List.zipWith (fun x y => x + y * 1000000000))
          (List.zipWith (fun q M => M.map (fun mrow => dot q mrow)) query
            (enc.map (fun seq => seq.map (fcSized hd W b)))) mk).map
        (fun row => [softmax e row]))
      (enc.map (fun seq => seq.map (fcSized hd W b))) =
    List.zipWith (fun p mr => attentionSpecOne e hd W b p.1 p.2 (some mr))
      (query.zip enc) mk := by
  intro query
  induction query with
  | nil => intro enc mk; rfl
  | cons q qs ih =>
    intro enc mk
    cases enc with
    | nil => rfl
    | cons en ens =>
      cases mk with
      | nil => rfl
      | cons m0 mks =>
        simp only [List.map_cons, List.zipWith_cons_cons, List.zip_cons_cons]
        congr 1
        exact ih ens mks

/-- Claim C7: `AttentionDecoderCell.attention` is exactly the spec's
matmul-and-softmax attention — per batch element it projects `enc_output`
to a memory through the learned `dec_memory_w` layer, forms scores as the
query times the transposed memory, adds `mask * 1000000000` to the scores
when a padding mask is given (the source's transpose-add-transpose
broadcast equals this direct addition), softmaxes the scores into weights,
and returns the weights times the memory. -/
theorem attention_eq_spec (e : ℚ → ℚ) (hiddenSize : Nat) (memW : List (List ℚ))
    (memB : List ℚ) (query : List (List ℚ)) (encOutput : List (List (List ℚ)))
    (mask : Option (List (List ℚ))) :
    attention e hiddenSize memW memB query encOutput mask =
      attentionSpec e hiddenSize memW memB query encOutput mask := by
  cases mask with
  | none =>
    simp only [attention, attentionSpec]
    rw [zipWith_matmulT_unsqueeze, List.map_map]
    exact attention_nomask_zip e hiddenSize memW memB query encOutput
  | some mk =>
    simp only [attention, attentionSpec]
    rw [zipWith_matmulT_unsqueeze]
    by_cases hS : (List.zipWith (fun q M => M.map (fun mrow => dot q mrow)) query
        (encOutput.map (fun seq => seq.map (fcSized hiddenSize memW memB)))) = [] 
    · rcases List.zipWith_eq_nil_iff.mp hS with h | h
      · subst h
        rfl
      · have henc : encOutput = [] := List.map_eq_nil_iff.mp h
        subst henc
        simp [transpose102]
    · rw [transpose102_map_singleton hS, List.map_cons, List.map_nil,
        transpose102_singleton, List.map_map]
      exact attention_mask_zip e hiddenSize memW memB query encOutput mk

end TextGen
